import Mathlib

/-!
# Verification of the decap session registry, request interpreter and HTML preprocessor

This file is a shallow embedding, in Lean 4, of the core pure logic of the
`decap` headless-browser automation service:

* the tab-id grammar (`tabRegexp` / `parseTabID` in the session code);
* the session registry's message handlers (`AllocateSessions`'s
  `windowQuery`, `tabSave`, `tabLoadQuery` branches, `createWindow`,
  `createSessionID`, `createSiblingTabWithTimeout`);
* the request interpreter's block-execution loop (`Request.Execute`) and
  the duration-clamping parsers (`parseRenderDelay`, `parseTimeout`);
* the readability preprocessor's header normalization and inline-wrapper
  promotion passes (`readability/normalize.go`).

Conventions of the embedding:

* Go strings are modelled as `List Char`; all concrete inputs used in the
  theorems are ASCII, for which Go's byte length coincides with the
  character count used here.
* Go `time.Duration` (an `int64` count of nanoseconds) is modelled as `Int`.
* Go maps are modelled as association lists with `lookup` / `insert` /
  `erase` operations; only lookup semantics matter to the claims.
* Side effects on `os.Stderr` are modelled as returned lists of warning
  strings (we only track *whether* and on which path a warning is emitted).
* Nondeterministic inputs of the real system — `rand.Int63()` and
  `time.Now()` — are passed in explicitly as parameters.
* In-place DOM mutation is modelled by locating nodes through paths
  (lists of child indices) and rebuilding the tree functionally; a
  snapshot of node pointers taken by `dom.QuerySelectorAll` before a
  mutation loop becomes a snapshot of paths, which is faithful whenever
  the loop does not reshape the tree around the remaining paths (argued
  at each definition below).
-/

/-! ## Hex digits and the tab-id grammar

Go source (sessions file):
`tabRegexp = regexp.MustCompile("^([[:xdigit:]]{8,})_([[:xdigit:]]{8})$")`.
`parseTabID` returns the two groups on a match and an error otherwise.
-/

/-- POSIX `[[:xdigit:]]`: ASCII hexadecimal digit. -/
def isHexDigit (c : Char) : Bool :=
  ('0' ≤ c && c ≤ '9') || ('a' ≤ c && c ≤ 'f') || ('A' ≤ c && c ≤ 'F')

/-- `parseTabID` from the session code.  The regular expression
`^([[:xdigit:]]{8,})_([[:xdigit:]]{8})$` can only match by splitting the
input at its first underscore (both capture groups consist of hex digits
only, and `_` is not a hex digit), so a match is exactly: everything before
the first `_` is at least 8 hex digits, and everything after it is exactly
8 hex digits (in particular underscore-free).  On a match Go returns the
two groups `(prefix, suffix)`; otherwise an error. -/
def parseTabID (id : List Char) : Option (List Char × List Char) :=
  let pre := id.takeWhile (fun c => c ≠ '_')
  match id.dropWhile (fun c => c ≠ '_') with
  | '_' :: suf =>
    if 8 ≤ pre.length ∧ pre.all isHexDigit ∧ suf.length = 8 ∧ suf.all isHexDigit
    then some (pre, suf) else none
  | _ => none

/-- Modelled from the spec: the spec's `TabID := WindowID "_" 8·HEX` with
`WindowID := 8·HEX` — decomposition must yield *exactly* two 8-hex-digit
groups separated by one underscore.  Stated next to `parseTabID` so the two
grammars can be compared. -/
def specTabIDOk (id : List Char) : Bool :=
  let pre := id.takeWhile (fun c => c ≠ '_')
  match id.dropWhile (fun c => c ≠ '_') with
  | '_' :: suf =>
    pre.length = 8 && pre.all isHexDigit && suf.length = 8 && suf.all isHexDigit
  | _ => false

/-! ## Durations and sessions -/

/-- One second in Go `time.Duration` units (nanoseconds). -/
def secondNS : Int := 1000000000

/-- The `session` struct of the session code, minus the two
`chromedp`/`context` handles (which carry no decidable state): an id, the
`last` use timestamp (modelled as `Nat`, nanoseconds since epoch) and the
idle `timeout`. -/
structure WSession where
  id : List Char
  last : Nat
  timeout : Int
  deriving DecidableEq, Repr

/-- The zero `session` value a Go map read returns for a missing key. -/
def zeroSession : WSession := { id := [], last := 0, timeout := 0 }

/-- Association-list model of a Go `map[string]session`. -/
abbrev SessionMap : Type := List (List Char × WSession)

/-- Map lookup, `m[k]`'s `(value, ok)` part. -/
def mapLookup (m : SessionMap) (k : List Char) : Option WSession :=
  match m with
  | [] => none
  | (k', v) :: rest => if k' = k then some v else mapLookup rest k

/-- Map removal, `delete(m, k)`. -/
def mapErase (m : SessionMap) (k : List Char) : SessionMap :=
  match m with
  | [] => []
  | (k', v) :: rest => if k' = k then mapErase rest k else (k', v) :: mapErase rest k

/-- Map write, `m[k] = v`. -/
def mapInsert (m : SessionMap) (k : List Char) (v : WSession) : SessionMap :=
  (k, v) :: mapErase m k

/-- Lowercase hexadecimal digit character for a value `0 ≤ n < 16`
(`'0'`–`'9'`, `'a'`–`'f'`), as produced by Go's `%x` verb. -/
def hexDigitChar (n : Nat) : Char :=
  if n < 10 then Char.ofNat (48 + n) else Char.ofNat (87 + n)

/-- Big-endian rendering of `v` as exactly `k` lowercase hex digits
(zero-padded), the effect of Go's `%0kx` on a value below `16^k`. -/
def toHexPad : Nat → Nat → List Char
  | 0, _ => []
  | k + 1, v => toHexPad k (v / 16) ++ [hexDigitChar (v % 16)]

/-- `createSessionID` renders `rand.Int63() & 0xffffffff` with `%08x`:
the low 32 bits of the random draw, zero-padded to eight lowercase hex
digits.  The random draw is the explicit parameter `r`. -/
def createSessionID (r : Nat) : List Char :=
  toHexPad 8 (r % 4294967296)

/-- `createWindow` (session code): the browser-context plumbing is dropped;
what remains is the id choice — a supplied id of length `< 8` (including
the empty string) is discarded in favour of a freshly generated 8-hex id,
any longer id is adopted verbatim.  The fresh random draw is the explicit
parameter `r`.  Timeout and last-used are the zero values at this point. -/
def createWindow (r : Nat) (id : List Char) : WSession :=
  { id := if id.length < 8 then createSessionID r else id
    last := 0
    timeout := 0 }

/-- The `windowQuery` branch of `AllocateSessions`:

```
w, ok := windows[q.id]
if !ok { w = createWindow(q.id); w.timeout = 30 * time.Second }
if q.timeout > w.timeout { w.timeout = q.timeout }
w.last = time.Now()
windowReply <- w
windows[w.id] = w
```

Returns the replied window together with the updated window map. -/
def windowQueryStep (r : Nat) (now : Nat) (windows : SessionMap) (q : WSession) :
    WSession × SessionMap :=
  let w := match mapLookup windows q.id with
    | some w => w
    | none => { createWindow r q.id with timeout := 30 * secondNS }
  let w := if q.timeout > w.timeout then { w with timeout := q.timeout } else w
  let w := { w with last := now }
  (w, mapInsert windows w.id w)

/-- The `tabSave` branch of `AllocateSessions`: `tabs[t.id] = t`, with no
check of any kind and no diagnostics.  The second component is the (empty)
list of warnings the handler emits. -/
def tabSaveStep (tabs : SessionMap) (t : WSession) : SessionMap × List String :=
  (mapInsert tabs t.id t, [])

/-- The `tabLoadQuery` branch of `AllocateSessions`:

```
tabLoadReply <- tabs[id]
delete(tabs, id)
prefix, _, err := parseTabID(id)
if err != nil { warn "Tab ID parse error"; break }
if w, ok := windows[prefix]; ok { w.last = now; windows[prefix] = w }
else { warn "didn't match any window" }
```

Returns (reply, tabs', windows', warnings). -/
def tabLoadStep (now : Nat) (windows tabs : SessionMap) (id : List Char) :
    WSession × SessionMap × SessionMap × List String :=
  let reply := (mapLookup tabs id).getD zeroSession
  let tabs' := mapErase tabs id
  match parseTabID id with
  | none => (reply, tabs', windows, ["Tab ID parse error"])
  | some (pre, _) =>
    match mapLookup windows pre with
    | some w => (reply, tabs', mapInsert windows pre { w with last := now }, [])
    | none => (reply, tabs', windows, ["Tab ID didn't match any window"])

/-- `createSiblingTabWithTimeout` (session code):

```
if timeout > ses.timeout { ses = loadWindow(ses.id, timeout) }
id := fmt.Sprintf("%s_%s", ses.id, createSessionID())
sibling := session{id: id, timeout: timeout}
```

`loadWindow` is a round trip through the registry actor's `windowQuery`
branch, so it is `windowQueryStep` here; `r` is the random draw consumed
if that branch must create a window, `r'` the draw for the sibling tab id,
`now` the actor's clock.  Returns (sibling tab, updated window map). -/
def createSiblingTabWithTimeout (r r' : Nat) (now : Nat) (windows : SessionMap)
    (ses : WSession) (timeout : Int) : WSession × SessionMap :=
  let (ses, windows) :=
    if timeout > ses.timeout
    then windowQueryStep r now windows { id := ses.id, last := 0, timeout := timeout }
    else (ses, windows)
  let id := ses.id ++ '_' :: createSessionID r'
  ({ id := id, last := 0, timeout := timeout }, windows)

/-! ## The block-execution loop of `Request.Execute`

```
for i := 0; i < *block.Repeat; i++ {
    err = block.cdpWhile.Do(tab.ctx)
    if err != nil { return nil, err }
    if !block.cont { break }
    err = chromedp.Run(tab.ctx, block.cdpActions...)
    if err != nil { return nil, err }
}
```

The guard (`cdpWhile`) and the compiled action list are modelled as
functions of the iteration index: the guard either fails with an error or
reports the value it writes into `block.cont`; the action list either
fails or succeeds.  The model returns how many times the guard was
evaluated, how many times the action list was run, and the error (if any)
that aborted the request. -/

/-- Outcome of running one query block: number of guard evaluations,
number of action-list runs, error that aborted the loop (if any). -/
structure BlockRun where
  guards : Nat
  actions : Nat
  err : Option String
  deriving DecidableEq, Repr

/-- The loop body of `Request.Execute` for one block, starting at
iteration `i` with `fuel` iterations left (`fuel` counts down from the
block's `*Repeat`). -/
def execBlockFrom (guard : Nat → Except String Bool) (act : Nat → Except String Unit) :
    Nat → Nat → BlockRun
  | 0, _ => { guards := 0, actions := 0, err := none }
  | fuel + 1, i =>
    match guard i with
    | .error e => { guards := 1, actions := 0, err := some e }
    | .ok cont =>
      if cont then
        match act i with
        | .error e => { guards := 1, actions := 1, err := some e }
        | .ok _ =>
          let rest := execBlockFrom guard act fuel (i + 1)
          { guards := rest.guards + 1, actions := rest.actions + 1, err := rest.err }
      else { guards := 1, actions := 0, err := none }

/-- Running one block with repeat count `n` from the start. -/
def execBlock (n : Nat) (guard : Nat → Except String Bool)
    (act : Nat → Except String Unit) : BlockRun :=
  execBlockFrom guard act n 0

/-- `defaultWhile` (session code): unconditionally writes `true` into the
continue flag and returns no error — on every call. -/
def defaultWhile : Nat → Except String Bool := fun _ => .ok true

/-! ## Duration parsing and clamping (`query.go`)

`time.ParseDuration` belongs to the Go standard library (an external
collaborator), so its result is passed in as `parsed`; the modelled code
is everything `parseRenderDelay` / `parseTimeout` do around it. -/

/-- `MaxRenderDelay = 10 * time.Second`. -/
def MaxRenderDelay : Int := 10 * secondNS

/-- `MaxTimeout = 120 * time.Second`. -/
def MaxTimeout : Int := 120 * secondNS

/-- `Request.parseRenderDelay`: empty string is an error; a parse error is
an error; otherwise the delay is clamped from above by `MaxRenderDelay`
(there is no lower clamp) and stored. -/
def parseRenderDelay (raw : String) (parsed : Except String Int) : Except String Int :=
  if raw = "" then .error "global_render_delay is empty or missing"
  else
    match parsed with
    | .error e => .error ("invalid global_render_delay: " ++ e)
    | .ok delay => .ok (if delay > MaxRenderDelay then MaxRenderDelay else delay)

/-- `Request.parseTimeout`: empty string defaults to 20 s; a parse error is
an error; otherwise the timeout is clamped from above by `MaxTimeout`
(there is no lower clamp) and stored. -/
def parseTimeout (raw : String) (parsed : Except String Int) : Except String Int :=
  if raw = "" then .ok (20 * secondNS)
  else
    match parsed with
    | .error e => .error ("invalid timeout: " ++ e)
    | .ok timeout => .ok (if timeout > MaxTimeout then MaxTimeout else timeout)

/-! ## Generic helper lemmas -/

theorem takeWhile_append_all {α} (p : α → Bool) (l₁ l₂ : List α)
    (h : ∀ a ∈ l₁, p a = true) :
    (l₁ ++ l₂).takeWhile p = l₁ ++ l₂.takeWhile p := by
  induction l₁ with
  | nil => simp
  | cons a t ih =>
    have ha : p a = true := h a (by simp)
    simp only [List.cons_append, List.takeWhile_cons, ha, if_true]
    rw [ih (fun b hb => h b (by simp [hb]))]

theorem dropWhile_append_all {α} (p : α → Bool) (l₁ l₂ : List α)
    (h : ∀ a ∈ l₁, p a = true) :
    (l₁ ++ l₂).dropWhile p = l₂.dropWhile p := by
  induction l₁ with
  | nil => simp
  | cons a t ih =>
    have ha : p a = true := h a (by simp)
    simp only [List.cons_append, List.dropWhile_cons, ha, if_true]
    exact ih (fun b hb => h b (by simp [hb]))

theorem isHexDigit_ne_underscore {c : Char} (h : isHexDigit c = true) : c ≠ '_' := by
  rintro rfl
  exact absurd h (by decide)

theorem mapLookup_insert_self (m : SessionMap) (k : List Char) (v : WSession) :
    mapLookup (mapInsert m k v) k = some v := by
  simp [mapInsert, mapLookup]

theorem mapLookup_erase_self (m : SessionMap) (k : List Char) :
    mapLookup (mapErase m k) k = none := by
  induction m with
  | nil => rfl
  | cons kv rest ih =>
    obtain ⟨k', v⟩ := kv
    by_cases hk : k' = k
    · simpa [mapErase, hk] using ih
    · simpa [mapErase, mapLookup, hk] using ih

theorem toHexPad_length (k v : Nat) : (toHexPad k v).length = k := by
  induction k generalizing v with
  | zero => rfl
  | succ k ih => simp [toHexPad, ih]

theorem toHexPad_all_hex (k v : Nat) : (toHexPad k v).all isHexDigit = true := by
  induction k generalizing v with
  | zero => rfl
  | succ k ih =>
    have hlt : v % 16 < 16 := Nat.mod_lt _ (by omega)
    have hdig : isHexDigit (hexDigitChar (v % 16)) = true := by
      interval_cases h : v % 16 <;> decide
    simp [toHexPad, List.all_append, ih, hdig]

/-! ## C1 — the tab-id grammar -/

/-- C1 (counterexample): the claim says `parseTabID` accepts exactly the
strings made of an 8-hex-digit window group, one underscore and an
8-hex-digit tab group, rejecting in particular a first group of more than
8 hex digits.  But `tabRegexp`'s first group is `[[:xdigit:]]{8,}` — eight
*or more* — so `"123456789_12345678"` (9-digit first group) is accepted
even though it does not have the claimed 8+1+8 shape. -/
theorem parseTabID_claim_counterexample :
    (parseTabID ("123456789_12345678".toList)).isSome = true ∧
    specTabIDOk ("123456789_12345678".toList) = false := by
  constructor <;> decide

/-- C1 (amended): `parseTabID id` succeeds, returning `(pre, suf)`,
exactly when `id` is `pre ++ "_" ++ suf` with `pre` consisting of *at
least* 8 hex digits and `suf` of exactly 8 hex digits; every other string
is rejected with an error. -/
theorem parseTabID_characterization (id pre suf : List Char) :
    parseTabID id = some (pre, suf) ↔
      (id = pre ++ '_' :: suf ∧ 8 ≤ pre.length ∧ pre.all isHexDigit = true ∧
        suf.length = 8 ∧ suf.all isHexDigit = true) := by
  constructor
  · intro h
    unfold parseTabID at h
    rcases hdrop : id.dropWhile (fun c => decide (c ≠ '_')) with _ | ⟨c, suf'⟩ <;>
      rw [hdrop] at h
    · exact absurd h (by simp)
    · split at h
      · rename_i suf2 hcond
        obtain ⟨rfl, rfl⟩ : c = '_' ∧ suf' = suf2 := by
          injection hcond with h1 h2; exact ⟨h1, h2⟩
        dsimp only at h
        split at h
        · rename_i hcond2
          simp only [Option.some.injEq, Prod.mk.injEq] at h
          obtain ⟨hpre, hsuf2⟩ := h
          subst hpre; subst hsuf2
          refine ⟨?_, hcond2.1, by simpa using hcond2.2.1, hcond2.2.2.1,
            by simpa using hcond2.2.2.2⟩
          conv_lhs => rw [← List.takeWhile_append_dropWhile (p := fun c => decide (c ≠ '_')) (l := id)]
          rw [hdrop]
        · exact absurd h (by simp)
      · exact absurd h (by simp)
  · rintro ⟨rfl, hlen, hhex, hslen, hshex⟩
    have hpre : ∀ a ∈ pre, (fun c => decide (c ≠ '_')) a = true := by
      intro a ha
      have : isHexDigit a = true := by
        have := List.all_eq_true.mp hhex a ha
        simpa using this
      simpa using isHexDigit_ne_underscore this
    have htake : (pre ++ '_' :: suf).takeWhile (fun c => decide (c ≠ '_')) = pre := by
      rw [takeWhile_append_all _ _ _ hpre]
      simp [List.takeWhile_cons]
    have hdrop : (pre ++ '_' :: suf).dropWhile (fun c => decide (c ≠ '_')) = '_' :: suf := by
      rw [dropWhile_append_all _ _ _ hpre]
      simp [List.dropWhile_cons]
    unfold parseTabID
    simp only [htake, hdrop]
    show (if 8 ≤ pre.length ∧ pre.all isHexDigit = true ∧ suf.length = 8 ∧
        suf.all isHexDigit = true then some (pre, suf) else none) = some (pre, suf)
    rw [if_pos ⟨hlen, hhex, hslen, hshex⟩]

/-- C1 (witness for the amended theorem): a concrete 9+8 id is accepted
and decomposed as characterized. -/
theorem parseTabID_characterization_witness :
    parseTabID ("123456789_12345678".toList) =
      some ("123456789".toList, "12345678".toList) := by
  exact (parseTabID_characterization ("123456789_12345678".toList)
      ("123456789".toList) ("12345678".toList)).mpr
    (by refine ⟨?_, ?_, ?_, ?_, ?_⟩ <;> decide)

/-! ## C2 — the WINDOW_QUERY handler -/

/-- C2 (counterexample): the claim says an unknown id always yields a
window with a *freshly generated 8-hex id* and a *30-second* default
timeout.  But for the unknown id `"whatever!"` (length 9, not hex) with a
requested timeout of 60 s, `createWindow` adopts the supplied string
verbatim and the timeout ends up at 60 s, not 30 s. -/
theorem windowQuery_claim_counterexample :
    ((windowQueryStep 1 1000 []
        { id := "whatever!".toList, last := 0, timeout := 60 * secondNS }).1.id
      = "whatever!".toList) ∧
    ((windowQueryStep 1 1000 []
        { id := "whatever!".toList, last := 0, timeout := 60 * secondNS }).1.timeout
      = 60 * secondNS) ∧
    ((windowQueryStep 1 1000 []
        { id := "whatever!".toList, last := 0, timeout := 60 * secondNS }).1.timeout
      ≠ 30 * secondNS) ∧
    ((windowQueryStep 1 1000 []
        { id := "whatever!".toList, last := 0, timeout := 60 * secondNS }).1.id.all
        isHexDigit = false) := by
  refine ⟨rfl, rfl, by decide, by decide⟩

/-- C2 (amended): on WINDOW_QUERY, if the id is found its window's timeout
becomes `max(existing, requested)`; if the id is empty or unknown a new
window is created whose id is the supplied id when its length is at least
8 and a freshly generated 8-hex id otherwise, and whose timeout is
`max(30 s, requested)`.  In both cases `last_used` becomes `now`, the
resulting window is the reply and it is stored in the map under its id. -/
theorem windowQueryStep_spec (r now : Nat) (windows : SessionMap) (q : WSession) :
    (∀ w, mapLookup windows q.id = some w →
      (windowQueryStep r now windows q).1 =
        { id := w.id, last := now, timeout := max w.timeout q.timeout }) ∧
    (mapLookup windows q.id = none →
      (windowQueryStep r now windows q).1 =
        { id := if q.id.length < 8 then createSessionID r else q.id,
          last := now, timeout := max (30 * secondNS) q.timeout }) ∧
    (windowQueryStep r now windows q).2 =
      mapInsert windows (windowQueryStep r now windows q).1.id
        (windowQueryStep r now windows q).1 := by
  refine ⟨?_, ?_, rfl⟩
  · intro w hw
    simp only [windowQueryStep, hw]
    split
    · rename_i h
      rw [max_eq_right (le_of_lt h)]
    · rename_i h
      rw [max_eq_left (not_lt.mp h)]
  · intro hw
    simp only [windowQueryStep, hw, createWindow]
    split
    · rename_i h
      rw [max_eq_right (le_of_lt h)]
    · rename_i h
      rw [max_eq_left (not_lt.mp h)]

/-- C2 (witness for the amended theorem): a found window with timeout 20 s
and a 60 s request ends up with timeout 60 s and fresh `last`; the map is
updated under the window's id. -/
theorem windowQueryStep_spec_witness :
    (windowQueryStep 7 500
        [("deadbeef".toList, { id := "deadbeef".toList, last := 3, timeout := 20 * secondNS })]
        { id := "deadbeef".toList, last := 0, timeout := 60 * secondNS }).1 =
      { id := "deadbeef".toList, last := 500, timeout := 60 * secondNS } := by
  have h := (windowQueryStep_spec 7 500
      [("deadbeef".toList, { id := "deadbeef".toList, last := 3, timeout := 20 * secondNS })]
      { id := "deadbeef".toList, last := 0, timeout := 60 * secondNS }).1
      { id := "deadbeef".toList, last := 3, timeout := 20 * secondNS } (by decide)
  rw [h]
  decide

/-! ## C4 — tab save / load and the window-prefix check -/

/-- C4 (counterexample): the claim says a tab whose window prefix is
missing from the window map is dropped with a warning *when saved*.  But
the `tabSave` handler is `tabs[t.id] = t` and nothing else — with an empty
window map (so the prefix `"aaaaaaaa"` is certainly absent), the tab is
inserted into the tab map and no warning is emitted. -/
theorem tabSave_claim_counterexample :
    tabSaveStep [] { id := "aaaaaaaa_bbbbbbbb".toList, last := 0, timeout := 0 } =
      ([("aaaaaaaa_bbbbbbbb".toList,
          { id := "aaaaaaaa_bbbbbbbb".toList, last := 0, timeout := 0 })], []) ∧
    mapLookup [] ("aaaaaaaa".toList) = none :=
  ⟨rfl, rfl⟩

/-- C4 (amended): TAB_SAVE inserts the tab unconditionally, with no
window-prefix check and no warning.  On TAB_LOAD the tab is always removed
from the tab map (the reply is still delivered); if the id parses and the
window prefix is absent from the window map, a warning is emitted and the
window map is left unchanged. -/
theorem tabRegistry_save_load (now : Nat) (windows tabs : SessionMap) (t : WSession)
    (id pre suf : List Char) (hp : parseTabID id = some (pre, suf))
    (hw : mapLookup windows pre = none) :
    tabSaveStep tabs t = (mapInsert tabs t.id t, []) ∧
    tabLoadStep now windows tabs id =
      ((mapLookup tabs id).getD zeroSession, mapErase tabs id, windows,
        ["Tab ID didn't match any window"]) ∧
    mapLookup (tabLoadStep now windows tabs id).2.1 id = none := by
  have hstep : tabLoadStep now windows tabs id =
      ((mapLookup tabs id).getD zeroSession, mapErase tabs id, windows,
        ["Tab ID didn't match any window"]) := by
    simp only [tabLoadStep, hp, hw]
  refine ⟨rfl, hstep, ?_⟩
  rw [hstep]
  exact mapLookup_erase_self tabs id

/-- C4 (witness for the amended theorem): loading the concrete tab
`"aaaaaaaa_bbbbbbbb"` against an empty window map delivers the stored tab,
removes it from the tab map and emits the mismatch warning. -/
theorem tabRegistry_save_load_witness :
    tabLoadStep 5 []
        [("aaaaaaaa_bbbbbbbb".toList, { id := "aaaaaaaa_bbbbbbbb".toList, last := 1, timeout := 0 })]
        ("aaaaaaaa_bbbbbbbb".toList) =
      ({ id := "aaaaaaaa_bbbbbbbb".toList, last := 1, timeout := 0 }, [], [],
        ["Tab ID didn't match any window"]) := by
  have h := (tabRegistry_save_load 5 []
      [("aaaaaaaa_bbbbbbbb".toList, { id := "aaaaaaaa_bbbbbbbb".toList, last := 1, timeout := 0 })]
      zeroSession ("aaaaaaaa_bbbbbbbb".toList) ("aaaaaaaa".toList) ("bbbbbbbb".toList)
      (by decide) rfl).2.1
  rw [h]
  decide

/-! ## C5 — the tab timeout never exceeds the window's -/

/-- C5: a sibling tab created with requested timeout `t` under the window
registered for `ses.id` gets effective timeout exactly `t`, and the owning
window's timeout at the moment of creation is at least `t`: when `t`
exceeds the window's current timeout the window is first re-queried
through the registry, which raises its timeout to `t`. -/
theorem createSiblingTab_timeout_clamped (r r' now : Nat) (windows : SessionMap)
    (ses : WSession) (t : Int) (h : mapLookup windows ses.id = some ses) :
    (createSiblingTabWithTimeout r r' now windows ses t).1.timeout = t ∧
    (createSiblingTabWithTimeout r r' now windows ses t).1.id =
      ses.id ++ '_' :: createSessionID r' ∧
    ∃ w, mapLookup (createSiblingTabWithTimeout r r' now windows ses t).2 ses.id = some w ∧
      t ≤ w.timeout := by
  by_cases ht : t > ses.timeout
  · have hstep : windowQueryStep r now windows { id := ses.id, last := 0, timeout := t } =
        ({ id := ses.id, last := now, timeout := t },
          mapInsert windows ses.id { id := ses.id, last := now, timeout := t }) := by
      simp [windowQueryStep, h, ht]
    unfold createSiblingTabWithTimeout
    rw [if_pos ht, hstep]
    exact ⟨rfl, rfl, _, mapLookup_insert_self windows ses.id _, le_refl t⟩
  · unfold createSiblingTabWithTimeout
    rw [if_neg ht]
    exact ⟨rfl, rfl, ses, h, not_lt.mp ht⟩

/-- C5 (witness): a concrete window with a 20 s timeout and a 50 s tab
request: the window's stored timeout is raised to 50 s and the tab's
timeout (50 s) does not exceed it. -/
theorem createSiblingTab_timeout_clamped_witness :
    (createSiblingTabWithTimeout 3 9 777
        [("cafebabe".toList, { id := "cafebabe".toList, last := 1, timeout := 20 * secondNS })]
        { id := "cafebabe".toList, last := 1, timeout := 20 * secondNS }
        (50 * secondNS)).1.timeout = 50 * secondNS ∧
    ∃ w, mapLookup (createSiblingTabWithTimeout 3 9 777
        [("cafebabe".toList, { id := "cafebabe".toList, last := 1, timeout := 20 * secondNS })]
        { id := "cafebabe".toList, last := 1, timeout := 20 * secondNS }
        (50 * secondNS)).2 ("cafebabe".toList) = some w ∧ 50 * secondNS ≤ w.timeout := by
  have h := createSiblingTab_timeout_clamped 3 9 777
      [("cafebabe".toList, { id := "cafebabe".toList, last := 1, timeout := 20 * secondNS })]
      { id := "cafebabe".toList, last := 1, timeout := 20 * secondNS }
      (50 * secondNS) (by decide)
  exact ⟨h.1, h.2.2⟩

/-! ## C9 — the session id is never validated -/

/-- C9: the client-supplied session id is not validated against the 8-hex
grammar.  For a WINDOW_QUERY with an unknown id: if the id has length at
least 8 it is adopted verbatim (hex or not) as the new window's id; only
an id shorter than 8 characters (including the empty string) triggers
generation of a fresh random id, which is always 8 lowercase hex digits.
The sibling-tab id then uses the window id verbatim as its prefix. -/
theorem sessionID_never_validated (r r2 r' now : Nat) (windows windows2 : SessionMap)
    (id : List Char) (t : Int) (hunknown : mapLookup windows id = none) (w : WSession)
    (hw : w = (windowQueryStep r now windows { id := id, last := 0, timeout := t }).1) :
    (8 ≤ id.length → w.id = id) ∧
    (id.length < 8 → w.id = createSessionID r) ∧
    (createSessionID r).length = 8 ∧
    (createSessionID r).all isHexDigit = true ∧
    (createSiblingTabWithTimeout r2 r' now windows2 w t).1.id =
      w.id ++ '_' :: createSessionID r' := by
  have hid : w.id = if id.length < 8 then createSessionID r else id := by
    subst hw
    simp only [windowQueryStep, hunknown, createWindow]
    split <;> rfl
  have htimeout : t ≤ w.timeout := by
    subst hw
    simp only [windowQueryStep, hunknown, createWindow]
    split <;> rename_i hcmp <;> simp at hcmp ⊢ <;> omega
  refine ⟨?_, ?_, toHexPad_length 8 _, toHexPad_all_hex 8 _, ?_⟩
  · intro hlen
    rw [hid, if_neg (by omega)]
  · intro hlen
    rw [hid, if_pos hlen]
  · unfold createSiblingTabWithTimeout
    rw [if_neg (not_lt.mpr htimeout)]

/-- C9 (witness): the unknown non-hex id `"NOT-HEX-AT-ALL"` is adopted
verbatim as a window id and becomes the prefix of the created tab's id. -/
theorem sessionID_never_validated_witness :
    ((windowQueryStep 5 10 [] { id := "NOT-HEX-AT-ALL".toList, last := 0, timeout := 0 }).1.id
      = "NOT-HEX-AT-ALL".toList) ∧
    (createSiblingTabWithTimeout 6 7 10 []
        (windowQueryStep 5 10 [] { id := "NOT-HEX-AT-ALL".toList, last := 0, timeout := 0 }).1
        0).1.id =
      (windowQueryStep 5 10 [] { id := "NOT-HEX-AT-ALL".toList, last := 0, timeout := 0 }).1.id
        ++ '_' :: createSessionID 7 := by
  have h := sessionID_never_validated 5 6 7 10 [] []
      ("NOT-HEX-AT-ALL".toList) 0 rfl
      (windowQueryStep 5 10 [] { id := "NOT-HEX-AT-ALL".toList, last := 0, timeout := 0 }).1 rfl
  exact ⟨h.1 (by decide), h.2.2.2.2⟩

/-! ## C10 — negative durations pass the clamps -/

/-- C10: the clamps in `parseRenderDelay` and `parseTimeout` are
upper-bounds only.  A `global_render_delay` or `timeout` string that
parses to a negative duration (e.g. `"-5s"`) is accepted without error and
the stored value is that negative duration. -/
theorem negative_durations_accepted (rawDelay rawTimeout : String) (d t : Int)
    (hraw : rawDelay ≠ "") (hraw2 : rawTimeout ≠ "") (hd : d < 0) (ht : t < 0) :
    parseRenderDelay rawDelay (.ok d) = .ok d ∧
    parseTimeout rawTimeout (.ok t) = .ok t := by
  constructor
  · unfold parseRenderDelay
    rw [if_neg hraw]
    have hle : ¬ d > MaxRenderDelay := by
      unfold MaxRenderDelay secondNS
      omega
    simp [hle]
  · unfold parseTimeout
    rw [if_neg hraw2]
    have hle : ¬ t > MaxTimeout := by
      unfold MaxTimeout secondNS
      omega
    simp [hle]

/-- C10 (witness): `"-5s"` (parsed by `time.ParseDuration` to −5 s) is
stored as a −5 s render delay, and `"-1m"` as a −60 s timeout. -/
theorem negative_durations_accepted_witness :
    parseRenderDelay "-5s" (.ok (-5 * secondNS)) = .ok (-5 * secondNS) ∧
    parseTimeout "-1m" (.ok (-60 * secondNS)) = .ok (-60 * secondNS) :=
  negative_durations_accepted "-5s" "-1m" (-5 * secondNS) (-60 * secondNS)
    (by decide) (by decide) (by decide) (by decide)

/-! ## C3 — repeat/while control flow -/

theorem execBlockFrom_actions_le (guard : Nat → Except String Bool)
    (act : Nat → Except String Unit) :
    ∀ fuel i, (execBlockFrom guard act fuel i).actions ≤ fuel := by
  intro fuel
  induction fuel with
  | zero =>
    intro i
    simp [execBlockFrom]
  | succ k ih =>
    intro i
    unfold execBlockFrom
    rcases hg : guard i with e | cont
    · simp
    · cases cont
      · simp
      · rcases ha : act i with e | u
        · simp
        · simp only [if_true]
          exact Nat.succ_le_succ (ih (i + 1))

theorem execBlockFrom_all_true (guard : Nat → Except String Bool)
    (act : Nat → Except String Unit) (hg : ∀ j, guard j = .ok true)
    (ha : ∀ j, act j = .ok ()) :
    ∀ fuel i, execBlockFrom guard act fuel i =
      { guards := fuel, actions := fuel, err := none } := by
  intro fuel
  induction fuel with
  | zero => intro i; rfl
  | succ k ih =>
    intro i
    unfold execBlockFrom
    rw [hg i, ha i]
    simp [ih (i + 1)]

theorem execBlockFrom_stops (guard : Nat → Except String Bool)
    (act : Nat → Except String Unit) (ha : ∀ j, act j = .ok ()) :
    ∀ fuel i j, i ≤ j → j < i + fuel → guard j = .ok false →
      (∀ k, i ≤ k → k < j → guard k = .ok true) →
      execBlockFrom guard act fuel i =
        { guards := j - i + 1, actions := j - i, err := none } := by
  intro fuel
  induction fuel with
  | zero =>
    intro i j h1 h2 _ _
    omega
  | succ n ih =>
    intro i j h1 h2 hgj hk
    by_cases hij : i = j
    · subst hij
      unfold execBlockFrom
      rw [hgj]
      simp
    · have hlt : i < j := lt_of_le_of_ne h1 hij
      unfold execBlockFrom
      rw [hk i (le_refl i) hlt, ha i]
      have hrest := ih (i + 1) j (by omega) (by omega) hgj
        (fun k hk1 hk2 => hk k (by omega) hk2)
      simp only [if_true, hrest]
      simp only [BlockRun.mk.injEq]
      refine ⟨by omega, by omega, trivial⟩

/-- C3: for a query block with repeat count `n ≥ 0`, the `while` guard is
evaluated before each iteration and the action list runs at most `n`
times; if the guard reports `false` at iteration `j` (having reported
`true` before, with all action runs succeeding) the loop stops there with
exactly `j` action runs and `j + 1` guard evaluations; with `n = 0` the
block is skipped and the guard is never evaluated; with no `while` given,
the default guard (`defaultWhile`) writes `true` on every call, so the
action list runs exactly `n` times. -/
theorem execBlock_control_flow (n : Nat) (guard : Nat → Except String Bool)
    (act : Nat → Except String Unit) :
    (execBlock n guard act).actions ≤ n ∧
    (n = 0 → execBlock n guard act = { guards := 0, actions := 0, err := none }) ∧
    ((∀ j, act j = .ok ()) → ∀ j, j < n → guard j = .ok false →
      (∀ k, k < j → guard k = .ok true) →
      execBlock n guard act = { guards := j + 1, actions := j, err := none }) ∧
    ((∀ j, act j = .ok ()) → execBlock n defaultWhile act =
      { guards := n, actions := n, err := none }) := by
  refine ⟨execBlockFrom_actions_le guard act n 0, ?_, ?_, ?_⟩
  · rintro rfl
    rfl
  · intro ha j hj hgj hk
    have := execBlockFrom_stops guard act ha n 0 j (Nat.zero_le j) (by omega) hgj
      (fun k _ hk2 => hk k hk2)
    simpa using this
  · intro ha
    exact execBlockFrom_all_true defaultWhile act (fun _ => rfl) ha n 0

/-- C3 (witness): with repeat count 3 and a guard that is true for the
first two iterations and false at the third, the action list runs exactly
twice and the guard is evaluated three times. -/
theorem execBlock_control_flow_witness :
    execBlock 3 (fun j => Except.ok (decide (j < 2))) (fun _ => Except.ok ()) =
      { guards := 3, actions := 2, err := none } :=
  (execBlock_control_flow 3 (fun j => Except.ok (decide (j < 2)))
      (fun _ => Except.ok ())).2.2.1 (fun _ => rfl) 2 (by decide) rfl
    (by
      intro k hk
      interval_cases k <;> rfl)

/-! ## The DOM model (`readability/normalize.go`)

A DOM tree is an element node (tag, attributes, children) or a text node.
Nodes are addressed by *paths* — lists of child indices from the root —
which lets the in-place mutations of the Go code be replayed on a pure
tree: `dom.QuerySelectorAll`'s snapshot of node pointers becomes a
snapshot of paths, taken before the mutation loop and interpreted against
the current tree at each step (exactly what a retained pointer sees). -/

inductive HNode where
  | elem (tag : String) (attrs : List (String × String)) (children : List HNode)
  | text (s : String)
  deriving Repr

/-- Subtree lookup along a path of child indices. -/
def getN : HNode → List Nat → Option HNode
  | n, [] => some n
  | .elem _ _ cs, i :: p =>
    match cs.get? i with
    | some c => getN c p
    | none => none
  | .text _, _ :: _ => none

/-- In-place update of one list entry (out-of-range is the identity). -/
def modifyIdx {α} (f : α → α) : Nat → List α → List α
  | _, [] => []
  | 0, a :: l => f a :: l
  | i + 1, a :: l => a :: modifyIdx f i l

/-- Rename the element at a path (keeping attributes and children): the
model of `el.Data = "div"` on the node a retained pointer designates. -/
def renameAt (tag' : String) : List Nat → HNode → HNode
  | [], .elem _ ats cs => .elem tag' ats cs
  | [], .text s => .text s
  | i :: p, .elem t ats cs => .elem t ats (modifyIdx (renameAt tag' p) i cs)
  | _ :: _, .text s => .text s

/-- Replace the whole subtree at a path: the model of
`h.Parent.InsertBefore(wrapper, h); removeNode(h)` — the wrapper takes
the header's place at the same child index. -/
def setN (repl : HNode) : List Nat → HNode → HNode
  | [], _ => repl
  | i :: p, .elem t ats cs => .elem t ats (modifyIdx (setN repl p) i cs)
  | _ :: _, .text s => .text s

/-- Delete one list entry (out-of-range is the identity). -/
def removeIdx {α} : Nat → List α → List α
  | _, [] => []
  | 0, _ :: l => l
  | i + 1, a :: l => a :: removeIdx i l

/-- Detach the node at a path from its parent (`removeNode`); at the root
(no parent) it is a no-op, as in the Go helper. -/
def removeAt : List Nat → HNode → HNode
  | [], n => n
  | [i], .elem t ats cs => .elem t ats (removeIdx i cs)
  | i :: p, .elem t ats cs => .elem t ats (modifyIdx (removeAt p) i cs)
  | _ :: _, .text s => .text s

/-- The tag of the element at a path, if the path leads to an element. -/
def tagAt (d : HNode) (p : List Nat) : Option String :=
  match getN d p with
  | some (.elem t _ _) => some t
  | _ => none

/-- First value of an attribute, or `""` (`getAttr`). -/
def getAttrN (n : HNode) (key : String) : String :=
  match n with
  | .elem _ ats _ => ((ats.find? (fun a => a.1 == key)).map (·.2)).getD ""
  | .text _ => ""

mutual
/-- `dom.TextContent`: concatenation of all text-node data in the
subtree, in document order. -/
def textContentN : HNode → List Char
  | .elem _ _ cs => textContentL cs
  | .text s => s.toList
def textContentL : List HNode → List Char
  | [] => []
  | c :: cs => textContentN c ++ textContentL cs
end

mutual
/-- Paths of all *element* nodes of the tree in document (pre-order)
order, the traversal order of `dom.QuerySelectorAll`; `[]` is the root
itself (selectors match strict descendants only, so callers drop it). -/
def allPathsN : HNode → List (List Nat)
  | .elem _ _ cs => [] :: allPathsL 0 cs
  | .text _ => []
def allPathsL : Nat → List HNode → List (List Nat)
  | _, [] => []
  | i, c :: cs => (allPathsN c).map (fun p => i :: p) ++ allPathsL (i + 1) cs
end

/-- `strings.TrimSpace` (ASCII whitespace). -/
def trimWS (l : List Char) : List Char :=
  ((l.dropWhile Char.isWhitespace).reverse.dropWhile Char.isWhitespace).reverse

/-- Single pass of [collapseWS]; the flag records whether the previous
character belonged to a whitespace run (whose single space has already
been emitted). -/
def collapseWSAux : Bool → List Char → List Char
  | _, [] => []
  | inRun, c :: rest =>
    if c.isWhitespace then
      (if inRun then [] else [' ']) ++ collapseWSAux true rest
    else c :: collapseWSAux false rest

/-- `reWS.ReplaceAllString(s, " ")` for `reWS = \s+`: every maximal run
of whitespace becomes one space. -/
def collapseWS (l : List Char) : List Char := collapseWSAux false l

/-- Single pass of [wsFields]; `acc` holds the reversed current word. -/
def wsFieldsAux : List Char → List Char → List (List Char)
  | acc, [] => if acc.isEmpty then [] else [acc.reverse]
  | acc, c :: rest =>
    if c.isWhitespace then
      (if acc.isEmpty then [] else [acc.reverse]) ++ wsFieldsAux [] rest
    else wsFieldsAux (c :: acc) rest

/-- `strings.Fields`: split around maximal whitespace runs. -/
def wsFields (l : List Char) : List (List Char) := wsFieldsAux [] l

/-- Substring containment (CSS `[attr*=value]`). -/
def containsSub (sub s : List Char) : Bool :=
  s.tails.any (fun t => sub.isPrefixOf t)

/-! ## Inline-wrapper promotion (`normalizeInlineWrappers`) -/

/-- The block-level tag set of `hasBlockDescendant`'s selector. -/
def blockTags : List String :=
  ["address", "article", "aside", "blockquote", "div", "dl", "fieldset",
   "figcaption", "figure", "footer", "form", "h1", "h2", "h3", "h4", "h5",
   "h6", "header", "hr", "li", "main", "nav", "ol", "p", "pre", "section",
   "table", "ul", "video"]

/-- The inline tag set of `normalizeInlineWrappers`'s selector. -/
def inlineTags : List String :=
  ["span", "b", "i", "strong", "em", "u", "s", "code", "kbd", "mark", "q",
   "small", "sub", "sup", "label", "time", "var", "abbr", "cite", "dfn", "tt"]

def isBlockTag (t : String) : Bool := blockTags.contains t

def isInlineTag (t : String) : Bool := inlineTags.contains t

mutual
/-- Whether any node of the subtree (root included) carries a block tag. -/
def subtreeHasBlock : HNode → Bool
  | .elem t _ cs => isBlockTag t || listHasBlock cs
  | .text _ => false
def listHasBlock : List HNode → Bool
  | [] => false
  | c :: cs => subtreeHasBlock c || listHasBlock cs
end

/-- `hasBlockDescendant` (normalize.go): some *strict* descendant matches
the block-level selector (`QuerySelectorAll` never matches the root). -/
def hasBlockDescendant : HNode → Bool
  | .elem _ _ cs => listHasBlock cs
  | .text _ => false

/-- The snapshot `dom.QuerySelectorAll(doc, inlineSel)` of the promotion
pass: strict-descendant element paths with an inline tag, in document
order, taken on the tree as it is when the loop starts. -/
def inlinePaths (doc : HNode) : List (List Nat) :=
  (allPathsN doc).filter (fun p =>
    (!p.isEmpty) && (match tagAt doc p with
      | some t => isInlineTag t
      | none => false))

/-- The loop body of `normalizeInlineWrappers` for one snapshot node: if
the retained node *currently* has a block-level strict descendant, rename
it to `div` in place (`el.Data = "div"; el.DataAtom = atom.Div`). -/
def inlineStep (d : HNode) (p : List Nat) : HNode :=
  match getN d p with
  | some n => if hasBlockDescendant n then renameAt "div" p d else d
  | none => d

/-- `normalizeInlineWrappers` (normalize.go): walk the snapshot in order.
Renaming never reshapes the tree, so every snapshot path keeps
designating the node its Go pointer designates. -/
def normalizeInlineWrappers (doc : HNode) : HNode :=
  (inlinePaths doc).foldl inlineStep doc

/-! ## Header normalization (`headerNormalization` and helpers) -/

/-- The generic badge-label blocklist (`genericBadgeLabels`). -/
def genericBadgeLabels : List String :=
  ["job", "jobs", "stilling", "stillinger", "annonce", "annoncer", "ad",
   "ads", "advertisement", "ny", "new"]

/-- `isGenericBadgeLabel`: lowercase the trimmed text and look it up. -/
def isGenericBadgeLabel (raw : List Char) : Bool :=
  genericBadgeLabels.map String.toList |>.contains ((trimWS raw).map Char.toLower)

/-- `findHeading`: the first `h1|h2|h3` strict descendant in document
order, as a path relative to the header. -/
def findHeadingPath (h : HNode) : Option (List Nat) :=
  (allPathsN h).find? (fun p =>
    (!p.isEmpty) && (match tagAt h p with
      | some t => t == "h1" || t == "h2" || t == "h3"
      | none => false))

/-- The badge selector `.badge, [class*='badge']`: a class-word match
implies a substring match, so the union is exactly "the class attribute
contains the substring `badge`". -/
def isBadgeNode (n : HNode) : Bool :=
  containsSub ("badge".toList) ((getAttrN n "class").toList)

/-- Number of strict-descendant elements of `n` whose tag satisfies
`pred` (the length of a `QuerySelectorAll` result on tag selectors). -/
def countDesc (n : HNode) (pred : String → Bool) : Nat :=
  ((allPathsN n).filter (fun q =>
    (!q.isEmpty) && (match tagAt n q with
      | some t => pred t
      | none => false))).length

/-- `cloneUsefulBadge`: first badge match, kept only when its trimmed
text length lies in `[3, 40]` and the label is not generic; the deep
clone of a subtree is the subtree value itself in a pure tree. -/
def cloneUsefulBadge (h : HNode) : Option HNode :=
  match (allPathsN h).find? (fun p =>
    (!p.isEmpty) && (match getN h p with
      | some n => isBadgeNode n
      | none => false)) with
  | none => none
  | some p =>
    match getN h p with
    | none => none
    | some badge =>
      let raw := trimWS (textContentN badge)
      if raw.length < 3 || raw.length > 40 then none
      else if isGenericBadgeLabel raw then none
      else some badge

/-- The acceptance test of `findSummaryParagraph` for one `<p>`:
whitespace-collapsed trimmed text length in `[40, 600]`, at most 6
`b`/`strong` descendants, and at least one bold or more than 6
space-separated tokens. -/
def summaryParaOk (pn : HNode) : Bool :=
  let txt := trimWS (collapseWS (textContentN pn))
  if txt.length < 40 || txt.length > 600 then false
  else
    let bolds := countDesc pn (fun t => t == "b" || t == "strong")
    if bolds > 6 then false
    else decide (bolds > 0) || decide (txt.count ' ' + 1 > 6)

/-- `findSummaryParagraph`: the first acceptable `<p>` descendant (deep
clone = subtree value). -/
def findSummaryParagraph (h : HNode) : Option HNode :=
  match (allPathsN h).find? (fun q =>
    (!q.isEmpty) && tagAt h q == some "p" && (match getN h q with
      | some pn => summaryParaOk pn
      | none => false)) with
  | some q => getN h q
  | none => none

/-- One node's match against `collectHeavyMeta`'s selector list
`.row,.col,[class*=grid],table,form,button,ul,ol,figure,picture,video,time`. -/
def isHeavyNode (n : HNode) : Bool :=
  match n with
  | .elem t _ _ =>
    ["table", "form", "button", "ul", "ol", "figure", "picture", "video",
      "time"].contains t
    || (wsFields (getAttrN n "class").toList).contains ("row".toList)
    || (wsFields (getAttrN n "class").toList).contains ("col".toList)
    || containsSub ("grid".toList) ((getAttrN n "class").toList)
  | .text _ => false

/-- `collectHeavyMeta`: heavy strict descendants of the header that are
not inside the heading (`nodeContains(heading, el)`, inclusive — a path
with the heading's path as a prefix).  The Go code also skips elements
that contain the *summary*, but the summary there is a fresh
`cloneNodeDeep` and `nodeContains` tests node identity against the live
tree, so that test can never fire and is dropped here. -/
def collectHeavyMeta (h : HNode) (headingPath : List Nat) : List (List Nat) :=
  (allPathsN h).filter (fun q =>
    (!q.isEmpty) && (match getN h q with
      | some n => isHeavyNode n
      | none => false)
    && !(headingPath.isPrefixOf q))

/-- The replacement `<div data-trimmed-header="1">`: badge clone (if
any), heading clone, summary clone (if any), in that order. -/
def buildWrapper (h : HNode) (headingPath : List Nat) : HNode :=
  let badge := cloneUsefulBadge h
  let heading := (getN h headingPath).getD (.text "")
  let summary := findSummaryParagraph h
  .elem "div" [("data-trimmed-header", "1")]
    ((match badge with | some b => [b] | none => []) ++ [heading] ++
      (match summary with | some s => [s] | none => []))

/-- `shouldReplaceHeader` (normalize.go): `shrinkRatio` is 1 unless both
texts are non-empty, in which case it is `|new| / |original|`; replace iff
`heavyCount > 0 || mediaOrExtra > 8 || shrinkRatio < 0.85`.  The Go
`float64` division is modelled by exact rational division. -/
def shouldReplaceHeader (originalText newText : List Char)
    (heavyCount mediaOrExtra : Nat) : Bool :=
  let shrinkRatio : ℚ :=
    if 0 < originalText.length ∧ 0 < newText.length
    then (newText.length : ℚ) / (originalText.length : ℚ)
    else 1
  decide (heavyCount > 0) || decide (mediaOrExtra > 8) ||
    decide (shrinkRatio < 85 / 100)

/-- Processing of one header `h` at path `p` in the document:
`headerNormalization`'s loop body.  Returns the new document and whether
the header was replaced.  The kept branch removes the collected heavy
nodes one by one; it only ever runs when that collection is empty
(`heavyCount > 0` forces the replace branch), so the removal order is
immaterial. -/
def processHeaderAt (d : HNode) (p : List Nat) : HNode × Bool :=
  match getN d p with
  | none => (d, false)
  | some h =>
    match findHeadingPath h with
    | none => (d, false)
    | some hp =>
      let heavy := collectHeavyMeta h hp
      let wrapper := buildWrapper h hp
      let originalText := trimWS (textContentN h)
      let newText := trimWS (textContentN wrapper)
      let media := countDesc h (fun t => t == "img" || t == "a")
      if shouldReplaceHeader originalText newText heavy.length media
      then (setN wrapper p d, true)
      else (heavy.foldl (fun acc q => removeAt (p ++ q) acc) d, false)

/-- The snapshot `dom.QuerySelectorAll(doc, "article > header, body >
header, main > header")`: strict-descendant `header` elements whose
parent is `article`, `body` or `main`, in document order. -/
def headerPaths (doc : HNode) : List (List Nat) :=
  (allPathsN doc).filter (fun p =>
    (!p.isEmpty) && tagAt doc p == some "header"
    && (match tagAt doc p.dropLast with
      | some t => t == "article" || t == "body" || t == "main"
      | none => false))

/-- One snapshot step of `headerNormalization`'s loop, carrying the paths
already replaced.  A snapshot node strictly inside an already replaced
header was detached from the document by that replacement (Go keeps
mutating the detached subtree, which no longer affects the document), so
such paths are skipped; every other snapshot path still designates its
node because a replacement swaps a subtree in place without disturbing
sibling indices. -/
def headerStep (acc : HNode × List (List Nat)) (p : List Nat) :
    HNode × List (List Nat) :=
  if acc.2.any (fun r => r.isPrefixOf p && decide (r.length < p.length)) then acc
  else
    let dr := processHeaderAt acc.1 p
    (dr.1, if dr.2 then p :: acc.2 else acc.2)

/-- `headerNormalization` (normalize.go): take the snapshot, then run the
loop body over it. -/
def headerNormalization (doc : HNode) : HNode :=
  ((headerPaths doc).foldl headerStep (doc, [])).1

/-! ## Path lemmas for the DOM model -/

theorem getN_append (q : List Nat) :
    ∀ (p : List Nat) (d : HNode),
      getN d (p ++ q) = (getN d p).bind (fun n => getN n q) := by
  intro p
  induction p with
  | nil =>
    intro d
    simp [getN]
  | cons i p ih =>
    intro d
    cases d with
    | text s => simp [getN]
    | elem t ats cs =>
      simp only [List.cons_append, getN]
      cases cs.get? i with
      | none => simp
      | some c => simpa using ih c

theorem modifyIdx_get? {α} (f : α → α) :
    ∀ (i : Nat) (l : List α) (j : Nat),
      (modifyIdx f i l).get? j = if i = j then (l.get? j).map f else l.get? j := by
  intro i
  induction i with
  | zero =>
    intro l j
    cases l with
    | nil => simp [modifyIdx]
    | cons a l =>
      cases j with
      | zero => simp [modifyIdx]
      | succ j => simp [modifyIdx]
  | succ i ih =>
    intro l j
    cases l with
    | nil => simp [modifyIdx]
    | cons a l =>
      cases j with
      | zero => simp [modifyIdx]
      | succ j =>
        simp only [modifyIdx, List.get?_cons_succ, ih l j]
        by_cases h : i = j
        · simp [h]
        · simp [h, fun hc => h (Nat.succ_injective hc)]

theorem getN_renameAt_outside (t' : String) :
    ∀ (p : List Nat) (d : HNode) (q : List Nat), ¬ (q <+: p) →
      getN (renameAt t' p d) q = getN d q := by
  intro p
  induction p with
  | nil =>
    intro d q hq
    cases q with
    | nil => exact absurd List.nil_prefix hq
    | cons j q' =>
      cases d with
      | text s => rfl
      | elem t ats cs => rfl
  | cons i p ih =>
    intro d q hq
    cases d with
    | text s =>
      cases q with
      | nil => rfl
      | cons j q' => rfl
    | elem t ats cs =>
      cases q with
      | nil => exact absurd List.nil_prefix hq
      | cons j q' =>
        simp only [renameAt, getN, modifyIdx_get?]
        by_cases hij : i = j
        · subst hij
          simp only [if_pos rfl]
          cases hc : cs.get? i with
          | none => rfl
          | some c =>
            simp only [Option.map_some]
            exact ih c q' (fun hpre => hq (List.cons_prefix_cons.mpr ⟨rfl, hpre⟩))
        · simp [hij]

theorem tagAt_renameAt_of_ne (t' : String) :
    ∀ (q p : List Nat) (d : HNode), q ≠ p →
      tagAt (renameAt t' p d) q = tagAt d q := by
  intro q
  induction q with
  | nil =>
    intro p d hq
    cases p with
    | nil => exact absurd rfl hq
    | cons i p' =>
      cases d with
      | text s => rfl
      | elem t ats cs => rfl
  | cons j q' ih =>
    intro p d hq
    cases p with
    | nil =>
      cases d with
      | text s => rfl
      | elem t ats cs => rfl
    | cons i p' =>
      cases d with
      | text s => rfl
      | elem t ats cs =>
        simp only [renameAt, tagAt, getN, modifyIdx_get?]
        by_cases hij : i = j
        · subst hij
          simp only [if_pos rfl]
          cases hc : cs.get? i with
          | none => rfl
          | some c =>
            simp only [Option.map_some]
            have : q' ≠ p' := fun he => hq (by rw [he])
            simpa [tagAt] using ih p' c this
        · simp [hij]

theorem tagAt_renameAt_self (t' : String) :
    ∀ (p : List Nat) (d : HNode),
      tagAt (renameAt t' p d) p = if (tagAt d p).isSome then some t' else none := by
  intro p
  induction p with
  | nil =>
    intro d
    cases d with
    | text s => rfl
    | elem t ats cs => rfl
  | cons i p' ih =>
    intro d
    cases d with
    | text s => rfl
    | elem t ats cs =>
      rcases hc : cs.get? i with _ | c
      · have l1 : getN (renameAt t' (i :: p') (.elem t ats cs)) (i :: p') = none := by
          show (match (modifyIdx (renameAt t' p') i cs).get? i with
            | some c => getN c p'
            | none => none) = none
          rw [modifyIdx_get?, if_pos rfl, hc]
          rfl
        have l2 : getN (.elem t ats cs) (i :: p') = none := by
          show (match cs.get? i with
            | some c => getN c p'
            | none => none) = none
          rw [hc]
        simp [tagAt, l1, l2]
      · have l1 : getN (renameAt t' (i :: p') (.elem t ats cs)) (i :: p')
            = getN (renameAt t' p' c) p' := by
          show (match (modifyIdx (renameAt t' p') i cs).get? i with
            | some c => getN c p'
            | none => none) = _
          rw [modifyIdx_get?, if_pos rfl, hc]
          rfl
        have l2 : getN (.elem t ats cs) (i :: p') = getN c p' := by
          show (match cs.get? i with
            | some c => getN c p'
            | none => none) = _
          rw [hc]
        simp only [tagAt, l1, l2]
        simpa [tagAt] using ih c

theorem getN_renameAt_isSome (t' : String) :
    ∀ (p : List Nat) (d : HNode) (q : List Nat),
      (getN (renameAt t' p d) q).isSome = (getN d q).isSome := by
  intro p
  induction p with
  | nil =>
    intro d q
    cases d with
    | text s => rfl
    | elem t ats cs =>
      cases q with
      | nil => rfl
      | cons j q' => rfl
  | cons i p' ih =>
    intro d q
    cases d with
    | text s =>
      cases q with
      | nil => rfl
      | cons j q' => rfl
    | elem t ats cs =>
      cases q with
      | nil => rfl
      | cons j q' =>
        simp only [renameAt, getN, modifyIdx_get?]
        by_cases hij : i = j
        · subst hij
          simp only [if_pos rfl]
          cases hc : cs.get? i with
          | none => rfl
          | some c =>
            simp only [Option.map_some]
            exact ih c q'
        · simp [hij]

/-! ## Block-freeness and the inline promotion pass -/

theorem listHasBlock_eq_false {cs : List HNode} (h : listHasBlock cs = false) :
    ∀ c ∈ cs, subtreeHasBlock c = false := by
  induction cs with
  | nil => intro c hc; cases hc
  | cons a l ih =>
    rw [listHasBlock, Bool.or_eq_false_iff] at h
    intro c hc
    rcases List.mem_cons.mp hc with rfl | hc
    · exact h.1
    · exact ih h.2 c hc

theorem subtreeHasBlock_getN :
    ∀ (r : List Nat) (n m : HNode), subtreeHasBlock n = false →
      getN n r = some m → subtreeHasBlock m = false := by
  intro r
  induction r with
  | nil =>
    intro n m h hg
    obtain rfl : n = m := by simpa [getN] using hg
    exact h
  | cons i r' ih =>
    intro n m h hg
    cases n with
    | text s => exact absurd hg (by simp [getN])
    | elem t ats cs =>
      rw [subtreeHasBlock, Bool.or_eq_false_iff] at h
      rcases hc : cs.get? i with _ | c
      · rw [show getN (.elem t ats cs) (i :: r') =
          (match cs.get? i with | some c => getN c r' | none => none) from rfl, hc] at hg
        cases hg
      · rw [show getN (.elem t ats cs) (i :: r') =
          (match cs.get? i with | some c => getN c r' | none => none) from rfl, hc] at hg
        have hmem : c ∈ cs := List.get?_mem hc
        exact ih c m (listHasBlock_eq_false h.2 c hmem) hg

theorem hasBlockDescendant_eq_false_of_subtree {n : HNode}
    (h : subtreeHasBlock n = false) : hasBlockDescendant n = false := by
  cases n with
  | text s => rfl
  | elem t ats cs =>
    rw [subtreeHasBlock, Bool.or_eq_false_iff] at h
    exact h.2

/-- The subtree at `p` (if `p` is valid) carries no block tag anywhere. -/
def blockFreeAt (d : HNode) (p : List Nat) : Prop :=
  ∀ n, getN d p = some n → subtreeHasBlock n = false

theorem inlineStep_preserves_blockFree (d : HNode) (x p : List Nat)
    (h : blockFreeAt d p) : blockFreeAt (inlineStep d x) p := by
  rcases hgx : getN d x with _ | n
  · have hstep : inlineStep d x = d := by unfold inlineStep; rw [hgx]
    rw [hstep]
    exact h
  · have hstep : inlineStep d x =
        if hasBlockDescendant n = true then renameAt "div" x d else d := by
      unfold inlineStep; rw [hgx]
    rw [hstep]
    by_cases hb : hasBlockDescendant n = true
    · rw [if_pos hb]
      by_cases hpre : p <+: x
      · obtain ⟨r, rfl⟩ := hpre
        rw [getN_append] at hgx
        rcases hbind : getN d p with _ | np
        · rw [hbind] at hgx; cases hgx
        · rw [hbind] at hgx
          simp only [Option.some_bind] at hgx
          have hfree := subtreeHasBlock_getN r np n (h np hbind) hgx
          rw [hasBlockDescendant_eq_false_of_subtree hfree] at hb
          exact absurd hb (by decide)
      · intro m hm
        rw [getN_renameAt_outside "div" x d p hpre] at hm
        exact h m hm
    · rw [if_neg hb]
      exact h

theorem foldl_inlineStep_preserves_blockFree :
    ∀ (L : List (List Nat)) (d : HNode) (p : List Nat),
      blockFreeAt d p → blockFreeAt (L.foldl inlineStep d) p := by
  intro L
  induction L with
  | nil => intro d p h; exact h
  | cons x L ih =>
    intro d p h
    exact ih (inlineStep d x) p (inlineStep_preserves_blockFree d x p h)

theorem inlineStep_tagAt (d : HNode) (x p : List Nat) :
    tagAt (inlineStep d x) p = tagAt d p ∨ tagAt (inlineStep d x) p = some "div" := by
  rcases hgx : getN d x with _ | n
  · have hstep : inlineStep d x = d := by unfold inlineStep; rw [hgx]
    rw [hstep]
    exact Or.inl rfl
  · have hstep : inlineStep d x =
        if hasBlockDescendant n = true then renameAt "div" x d else d := by
      unfold inlineStep; rw [hgx]
    rw [hstep]
    by_cases hb : hasBlockDescendant n = true
    · rw [if_pos hb]
      by_cases hpx : p = x
      · subst hpx
        rw [tagAt_renameAt_self]
        rcases hs : (tagAt d p).isSome with _ | _
        · rw [if_neg (by simp)]
          exact Or.inl (Option.not_isSome_iff_eq_none.mp (by simp [hs])).symm
        · rw [if_pos rfl]
          exact Or.inr rfl
      · exact Or.inl (tagAt_renameAt_of_ne "div" p x d hpx)
    · rw [if_neg hb]
      exact Or.inl rfl

theorem foldl_inlineStep_tagAt :
    ∀ (L : List (List Nat)) (d : HNode) (p : List Nat),
      tagAt (L.foldl inlineStep d) p = tagAt d p ∨
        tagAt (L.foldl inlineStep d) p = some "div" := by
  intro L
  induction L with
  | nil => intro d p; exact Or.inl rfl
  | cons x L ih =>
    intro d p
    rcases ih (inlineStep d x) p with h | h
    · rcases inlineStep_tagAt d x p with h2 | h2
      · exact Or.inl (by rw [List.foldl_cons, h, h2])
      · exact Or.inr (by rw [List.foldl_cons, h, h2])
    · exact Or.inr (by rw [List.foldl_cons, h])

theorem inlineStep_isSome (d : HNode) (x q : List Nat) :
    (getN (inlineStep d x) q).isSome = (getN d q).isSome := by
  rcases hgx : getN d x with _ | n
  · have hstep : inlineStep d x = d := by unfold inlineStep; rw [hgx]
    rw [hstep]
  · have hstep : inlineStep d x =
        if hasBlockDescendant n = true then renameAt "div" x d else d := by
      unfold inlineStep; rw [hgx]
    rw [hstep]
    by_cases hb : hasBlockDescendant n = true
    · rw [if_pos hb]
      exact getN_renameAt_isSome "div" x d q
    · rw [if_neg hb]

theorem foldl_inlineStep_isSome :
    ∀ (L : List (List Nat)) (d : HNode) (q : List Nat),
      (getN (L.foldl inlineStep d) q).isSome = (getN d q).isSome := by
  intro L
  induction L with
  | nil => intro d q; rfl
  | cons x L ih =>
    intro d q
    rw [List.foldl_cons, ih (inlineStep d x) q, inlineStep_isSome]

theorem inlineStep_eq (d : HNode) (p : List Nat) :
    inlineStep d p = match getN d p with
      | some n => if hasBlockDescendant n = true then renameAt "div" p d else d
      | none => d := rfl

theorem mem_allPathsL_of_get? :
    ∀ (cs : List HNode) (i k : Nat) (c : HNode) (q : List Nat),
      cs.get? i = some c → q ∈ allPathsN c → ((k + i) :: q) ∈ allPathsL k cs := by
  intro cs
  induction cs with
  | nil => intro i k c q hc _; cases i <;> cases hc
  | cons a l ih =>
    intro i k c q hc hq
    cases i with
    | zero =>
      obtain rfl : a = c := by simpa using hc
      rw [allPathsL]
      exact List.mem_append_left _ (List.mem_map.mpr ⟨q, hq, rfl⟩)
    | succ i =>
      rw [allPathsL]
      refine List.mem_append_right _ ?_
      have := ih i (k + 1) c q (by simpa using hc) hq
      simpa [Nat.add_assoc, Nat.add_comm 1 i] using this

theorem mem_allPathsN_of_tagAt :
    ∀ (p : List Nat) (d : HNode) (t : String),
      tagAt d p = some t → p ∈ allPathsN d := by
  intro p
  induction p with
  | nil =>
    intro d t h
    cases d with
    | text s => exact absurd h (by simp [tagAt, getN])
    | elem t0 ats cs =>
      rw [allPathsN]
      exact List.mem_cons_self _ _
  | cons i p' ih =>
    intro d t h
    cases d with
    | text s => exact absurd h (by simp [tagAt, getN])
    | elem t0 ats cs =>
      rcases hc : cs.get? i with _ | c
      · exfalso
        rw [tagAt, show getN (.elem t0 ats cs) (i :: p') =
          (match cs.get? i with | some c => getN c p' | none => none) from rfl, hc] at h
        cases h
      · rw [tagAt, show getN (.elem t0 ats cs) (i :: p') =
          (match cs.get? i with | some c => getN c p' | none => none) from rfl, hc] at h
        have hp' : p' ∈ allPathsN c := ih c t (by rw [tagAt]; exact h)
        rw [allPathsN]
        refine List.mem_cons_of_mem _ ?_
        simpa using mem_allPathsL_of_get? cs i 0 c p' hc hp'

theorem exists_last_occurrence {α} (a : α) :
    ∀ (L : List α), a ∈ L → ∃ L₁ L₂, L = L₁ ++ a :: L₂ ∧ a ∉ L₂ := by
  intro L
  induction L with
  | nil => intro h; cases h
  | cons b T ih =>
    intro h
    by_cases hT : a ∈ T
    · obtain ⟨T₁, T₂, rfl, hna⟩ := ih hT
      exact ⟨b :: T₁, T₂, rfl, hna⟩
    · rcases List.mem_cons.mp h with rfl | hmem
      · exact ⟨[], T, rfl, hT⟩
      · exact absurd hmem hT

theorem mem_of_listContains {t : String} {L : List String}
    (h : L.contains t = true) : t ∈ L := by
  simpa using h

theorem inline_block_tag_disjoint : ∀ t ∈ inlineTags, isBlockTag t = false := by
  decide

theorem isInlineTag_ne_div {t : String} (h : isInlineTag t = true) : t ≠ "div" := by
  intro hdiv
  subst hdiv
  exact absurd h (by decide)

/-- C7: after one run of `normalizeInlineWrappers`, no element (a strict
descendant of the document root, hence `p ≠ []`) whose tag is in the
inline set retains any strict descendant whose tag is in the block-level
set. -/
theorem inline_pass_no_block_descendants (doc : HNode) (p : List Nat) (t : String)
    (hp : p ≠ []) (htag : tagAt (normalizeInlineWrappers doc) p = some t)
    (hinline : isInlineTag t = true) :
    ∀ n, getN (normalizeInlineWrappers doc) p = some n → hasBlockDescendant n = false := by
  intro n hget
  have hdef : normalizeInlineWrappers doc = (inlinePaths doc).foldl inlineStep doc := rfl
  rw [hdef] at htag hget
  have htdoc : tagAt doc p = some t := by
    rcases foldl_inlineStep_tagAt (inlinePaths doc) doc p with h | h
    · rw [← h]; exact htag
    · exact absurd (Option.some.inj (h.symm.trans htag)).symm (isInlineTag_ne_div hinline)
  have hmemL : p ∈ inlinePaths doc := by
    rw [inlinePaths]
    refine List.mem_filter.mpr ⟨mem_allPathsN_of_tagAt p doc t htdoc, ?_⟩
    rw [htdoc]
    simp [hp, hinline]
  obtain ⟨L₁, L₂, hLdec, hnotin⟩ := exists_last_occurrence p (inlinePaths doc) hmemL
  rw [hLdec, List.foldl_append, List.foldl_cons] at htag hget
  have hs1 : (getN (inlineStep (L₁.foldl inlineStep doc) p) p).isSome = true := by
    rw [← foldl_inlineStep_isSome L₂]
    rw [hget]
    rfl
  have hs0 : (getN (L₁.foldl inlineStep doc) p).isSome = true := by
    rw [← inlineStep_isSome _ p p]
    exact hs1
  obtain ⟨n₁, hn₁⟩ := Option.isSome_iff_exists.mp hs0
  have hstep0 : inlineStep (L₁.foldl inlineStep doc) p =
      if hasBlockDescendant n₁ = true then renameAt "div" p (L₁.foldl inlineStep doc)
      else L₁.foldl inlineStep doc := by
    rw [inlineStep_eq, hn₁]
  have htagd₁ : tagAt (L₁.foldl inlineStep doc) p = some t := by
    rcases foldl_inlineStep_tagAt L₁ doc p with h | h
    · rw [h]; exact htdoc
    · exfalso
      have hstepdiv : tagAt (inlineStep (L₁.foldl inlineStep doc) p) p = tagAt (L₁.foldl inlineStep doc) p ∨
          tagAt (inlineStep (L₁.foldl inlineStep doc) p) p = some "div" :=
        inlineStep_tagAt _ p p
      have hfin := foldl_inlineStep_tagAt L₂ (inlineStep (L₁.foldl inlineStep doc) p) p
      have hdiv : tagAt (L₂.foldl inlineStep (inlineStep (L₁.foldl inlineStep doc) p)) p = some "div" := by
        rcases hfin with h2 | h2
        · rcases hstepdiv with h3 | h3
          · rw [h2, h3, h]
          · rw [h2, h3]
        · exact h2
      exact (isInlineTag_ne_div hinline) (Option.some.inj (htag.symm.trans hdiv))
  have hbd : hasBlockDescendant n₁ = false := by
    by_contra hbd'
    have hbd'' : hasBlockDescendant n₁ = true := by
      revert hbd'
      cases hasBlockDescendant n₁ <;> simp
    rw [if_pos hbd''] at hstep0
    have hstepdiv : tagAt (inlineStep (L₁.foldl inlineStep doc) p) p = some "div" := by
      rw [hstep0, tagAt_renameAt_self, if_pos (by rw [htagd₁]; rfl)]
    have hfin := foldl_inlineStep_tagAt L₂ (inlineStep (L₁.foldl inlineStep doc) p) p
    have hdiv : tagAt (L₂.foldl inlineStep (inlineStep (L₁.foldl inlineStep doc) p)) p = some "div" := by
      rcases hfin with h2 | h2
      · rw [h2, hstepdiv]
      · exact h2
    exact (isInlineTag_ne_div hinline) (Option.some.inj (htag.symm.trans hdiv))
  rw [if_neg (by rw [hbd]; simp)] at hstep0
  obtain ⟨ats, cs, rfl⟩ : ∃ ats cs, n₁ = .elem t ats cs := by
    cases n₁ with
    | text s =>
      exfalso
      rw [tagAt, hn₁] at htagd₁
      cases htagd₁
    | elem t2 ats cs =>
      rw [tagAt, hn₁] at htagd₁
      obtain rfl : t2 = t := by
        have := Option.some.inj htagd₁
        simpa using this
      exact ⟨ats, cs, rfl⟩
  have hsubfree : subtreeHasBlock (HNode.elem t ats cs) = false := by
    rw [subtreeHasBlock, Bool.or_eq_false_iff]
    constructor
    · exact inline_block_tag_disjoint t
        (mem_of_listContains (by simpa [isInlineTag] using hinline))
    · exact hbd
  have hbf : blockFreeAt (L₁.foldl inlineStep doc) p := by
    intro m hm
    rw [hn₁] at hm
    cases hm
    exact hsubfree
  have hbf2 : blockFreeAt (L₂.foldl inlineStep (inlineStep (L₁.foldl inlineStep doc) p)) p := by
    rw [hstep0]
    exact foldl_inlineStep_preserves_blockFree L₂ _ p hbf
  exact hasBlockDescendant_eq_false_of_subtree (hbf2 n hget)

/-- C7 (witness): on a document whose only inline wrappers contain no
block content, the pass leaves them inline and they indeed have no
block-level descendant. -/
theorem inline_pass_no_block_descendants_witness :
    hasBlockDescendant (HNode.elem "b" [] [HNode.text "hi"]) = false := by
  have hdoc : normalizeInlineWrappers
      (.elem "#document" [] [.elem "span" [] [.elem "b" [] [.text "hi"]]]) =
      (.elem "#document" [] [.elem "span" [] [.elem "b" [] [.text "hi"]]]) := by rfl
  refine inline_pass_no_block_descendants
      (.elem "#document" [] [.elem "span" [] [.elem "b" [] [.text "hi"]]])
      [0, 0] "b" (by decide) ?_ (by decide) (HNode.elem "b" [] [HNode.text "hi"]) ?_
  · rw [hdoc]
    rfl
  · rw [hdoc]
    rfl

/-! ## C6 — the header replacement decision -/

theorem shouldReplaceHeader_iff (o n : List Char) (hc m : Nat) :
    shouldReplaceHeader o n hc m = true ↔
      (0 < hc ∨ 8 < m ∨
        (0 < o.length ∧ 0 < n.length ∧ 100 * n.length < 85 * o.length)) := by
  unfold shouldReplaceHeader
  by_cases hpos : 0 < o.length ∧ 0 < n.length
  · rw [if_pos hpos]
    have key : ((n.length : ℚ) / (o.length : ℚ) < 85 / 100) ↔
        (100 * n.length < 85 * o.length) := by
      rw [div_lt_div_iff (by exact_mod_cast hpos.1) (by norm_num : (0 : ℚ) < 100)]
      rw [show ((n.length : ℚ) * 100) = ((100 * n.length : ℕ) : ℚ) by push_cast; ring]
      rw [show ((85 : ℚ) * (o.length : ℚ)) = ((85 * o.length : ℕ) : ℚ) by push_cast; ring]
      exact Nat.cast_lt
    simp only [Bool.or_eq_true, decide_eq_true_eq, key]
    constructor
    · rintro ((h | h) | h)
      · exact Or.inl h
      · exact Or.inr (Or.inl h)
      · exact Or.inr (Or.inr ⟨hpos.1, hpos.2, h⟩)
    · rintro (h | h | h)
      · exact Or.inl (Or.inl h)
      · exact Or.inl (Or.inr h)
      · exact Or.inr h.2.2
  · rw [if_neg hpos]
    have hone : ¬ ((1 : ℚ) < 85 / 100) := by norm_num
    simp only [Bool.or_eq_true, decide_eq_true_eq, hone]
    constructor
    · rintro ((h | h) | h)
      · exact Or.inl h
      · exact Or.inr (Or.inl h)
      · exact h.elim
    · rintro (h | h | h)
      · exact Or.inl (Or.inl h)
      · exact Or.inl (Or.inr h)
      · exact absurd ⟨h.1, h.2.1⟩ hpos

/-- C6: for every header `h` processed by header normalization (found at
path `p`, with a heading inside), the original header is replaced by the
trimmed wrapper exactly when the heavy-meta count is positive, or the
`img`+`a` descendant count exceeds 8, or both trimmed texts are non-empty
with `|new| / |original| < 0.85` (shrink is 1 when either text is empty);
otherwise only the collected heavy-meta nodes are removed in place — and
since a kept header has heavy count 0, that removal leaves the document
unchanged and the header in place. -/
theorem headerReplacement_decision (d h : HNode) (p hp : List Nat)
    (hget : getN d p = some h) (hhead : findHeadingPath h = some hp) :
    processHeaderAt d p =
      if 0 < (collectHeavyMeta h hp).length
          ∨ 8 < countDesc h (fun t => t == "img" || t == "a")
          ∨ (0 < (trimWS (textContentN h)).length ∧
             0 < (trimWS (textContentN (buildWrapper h hp))).length ∧
             100 * (trimWS (textContentN (buildWrapper h hp))).length <
               85 * (trimWS (textContentN h)).length)
      then (setN (buildWrapper h hp) p d, true)
      else (d, false) := by
  have hunfold : processHeaderAt d p =
      (if shouldReplaceHeader (trimWS (textContentN h))
          (trimWS (textContentN (buildWrapper h hp)))
          (collectHeavyMeta h hp).length
          (countDesc h (fun t => t == "img" || t == "a"))
      then (setN (buildWrapper h hp) p d, true)
      else ((collectHeavyMeta h hp).foldl (fun acc q => removeAt (p ++ q) acc) d,
        false)) := by
    unfold processHeaderAt
    rw [hget]
    show (match findHeadingPath h with
      | none => (d, false)
      | some hp =>
        let heavy := collectHeavyMeta h hp
        let wrapper := buildWrapper h hp
        let originalText := trimWS (textContentN h)
        let newText := trimWS (textContentN wrapper)
        let media := countDesc h (fun t => t == "img" || t == "a")
        if shouldReplaceHeader originalText newText heavy.length media = true
        then (setN wrapper p d, true)
        else (heavy.foldl (fun acc q => removeAt (p ++ q) acc) d, false)) = _
    rw [hhead]
  rw [hunfold]
  by_cases hcond : (0 < (collectHeavyMeta h hp).length
      ∨ 8 < countDesc h (fun t => t == "img" || t == "a")
      ∨ (0 < (trimWS (textContentN h)).length ∧
         0 < (trimWS (textContentN (buildWrapper h hp))).length ∧
         100 * (trimWS (textContentN (buildWrapper h hp))).length <
           85 * (trimWS (textContentN h)).length))
  · rw [if_pos ((shouldReplaceHeader_iff _ _ _ _).mpr hcond), if_pos hcond]
  · rw [if_neg (fun hx => hcond ((shouldReplaceHeader_iff _ _ _ _).mp hx)), if_neg hcond]
    have hlen : (collectHeavyMeta h hp).length = 0 := by
      by_contra hx
      exact hcond (Or.inl (Nat.pos_of_ne_zero hx))
    rw [List.length_eq_zero.mp hlen]
    rfl

/-- Example header whose noisy metadata (`time`) sits inside a badge-like
`main` wrapper — used as concrete input for the header-normalization
theorems. -/
def innerHeaderEx : HNode :=
  .elem "header" [] [.elem "h1" [] [.text "xyz"], .elem "time" [] [.text "t"]]

/-- The outer `body > header` around [innerHeaderEx]. -/
def outerHeaderEx : HNode :=
  .elem "header" [] [.elem "main" [("class", "badge")] [innerHeaderEx]]

/-- A document whose first normalization run replaces [outerHeaderEx]
with a trimmed wrapper that still contains `main > header`. -/
def docHeaderEx : HNode := .elem "body" [] [outerHeaderEx]

/-- C6 (witness): on the concrete document, the processed `body > header`
has heavy count 1 (the `time` element), so it is replaced by the trimmed
wrapper. -/
theorem headerReplacement_decision_witness :
    processHeaderAt docHeaderEx [0] =
      (setN (buildWrapper outerHeaderEx [0, 0, 0]) [0] docHeaderEx, true) := by
  rw [headerReplacement_decision docHeaderEx outerHeaderEx [0] [0, 0, 0] rfl rfl]
  rw [if_pos (Or.inl (by decide))]

/-! ## C8 — header normalization is not idempotent -/

/-- C8 (counterexample): running `headerNormalization` twice on
[docHeaderEx] is *not* the same as running it once.  The first run
replaces the outer header with a wrapper whose badge clone still contains
a `main > header`; the second run then rewrites that inner header (its
`time` child is heavy), turning the node at path `[0,0,0]` from `header`
into `div`. -/
theorem headerNormalization_claim_counterexample :
    headerNormalization (headerNormalization docHeaderEx) ≠
      headerNormalization docHeaderEx := by
  intro heq
  have h1 : tagAt (headerNormalization (headerNormalization docHeaderEx)) [0, 0, 0] =
      some "div" := by rfl
  rw [heq] at h1
  have h2 : tagAt (headerNormalization docHeaderEx) [0, 0, 0] = some "header" := by rfl
  rw [h2] at h1
  exact absurd h1 (by decide)

theorem processHeaderAt_keep (d : HNode) (p : List Nat)
    (h2 : (processHeaderAt d p).2 = false) : (processHeaderAt d p).1 = d := by
  rcases hget : getN d p with _ | hh
  · have hunf : processHeaderAt d p = (d, false) := by
      unfold processHeaderAt
      rw [hget]
    rw [hunf]
  · rcases hhead : findHeadingPath hh with _ | hp
    · have hunf : processHeaderAt d p = (d, false) := by
        unfold processHeaderAt
        rw [hget]
        show (match findHeadingPath hh with
          | none => (d, false)
          | some hp =>
            let heavy := collectHeavyMeta hh hp
            let wrapper := buildWrapper hh hp
            let originalText := trimWS (textContentN hh)
            let newText := trimWS (textContentN wrapper)
            let media := countDesc hh (fun t => t == "img" || t == "a")
            if shouldReplaceHeader originalText newText heavy.length media = true
            then (setN wrapper p d, true)
            else (heavy.foldl (fun acc q => removeAt (p ++ q) acc) d, false)) = _
        rw [hhead]
      rw [hunf]
    · rw [headerReplacement_decision d hh p hp hget hhead] at h2 ⊢
      by_cases hcond : (0 < (collectHeavyMeta hh hp).length
          ∨ 8 < countDesc hh (fun t => t == "img" || t == "a")
          ∨ (0 < (trimWS (textContentN hh)).length ∧
             0 < (trimWS (textContentN (buildWrapper hh hp))).length ∧
             100 * (trimWS (textContentN (buildWrapper hh hp))).length <
               85 * (trimWS (textContentN hh)).length))
      · rw [if_pos hcond] at h2
        exact absurd h2 (by simp)
      · rw [if_neg hcond]

/-- C8 (amended): `headerNormalization` is idempotent on every document
where it replaces no header — there it is the identity (the kept branch
can only remove the collected heavy nodes, and a kept header has none),
so a second run changes nothing.  In general a second run may further
rewrite `article/body/main > header` elements newly exposed inside a
trimmed wrapper's badge clone, as the counterexample shows. -/
theorem headerNormalization_identity_of_no_replace (doc : HNode)
    (hnr : ∀ p ∈ headerPaths doc, (processHeaderAt doc p).2 = false) :
    headerNormalization doc = doc ∧
    headerNormalization (headerNormalization doc) = headerNormalization doc := by
  have key : ∀ (L : List (List Nat)), (∀ p ∈ L, (processHeaderAt doc p).2 = false) →
      L.foldl headerStep (doc, ([] : List (List Nat))) = (doc, []) := by
    intro L
    induction L with
    | nil => intro _; rfl
    | cons x L ih =>
      intro hall
      rw [List.foldl_cons]
      have hx := hall x (List.mem_cons_self x L)
      have h1 := processHeaderAt_keep doc x hx
      have hstep : headerStep (doc, ([] : List (List Nat))) x = (doc, []) := by
        unfold headerStep
        rw [if_neg (by simp)]
        simp [h1, hx]
      rw [hstep]
      exact ih (fun p hp => hall p (List.mem_cons_of_mem _ hp))
  have hid : headerNormalization doc = doc := by
    unfold headerNormalization
    rw [key (headerPaths doc) hnr]
  refine ⟨hid, ?_⟩
  rw [hid]
  exact hid

/-- C8 (witness for the amended theorem): a plain header that passes the
shrink test is left alone by both runs. -/
theorem headerNormalization_identity_witness :
    headerNormalization
        (.elem "body" [] [.elem "header" [] [.elem "h1" [] [.text "Hello world"]]]) =
      (.elem "body" [] [.elem "header" [] [.elem "h1" [] [.text "Hello world"]]]) :=
  (headerNormalization_identity_of_no_replace
    (.elem "body" [] [.elem "header" [] [.elem "h1" [] [.text "Hello world"]]])
    (by
      intro p hp
      obtain rfl : p = [0] := by
        have he : headerPaths
            (.elem "body" [] [.elem "header" [] [.elem "h1" [] [.text "Hello world"]]]) =
            [[0]] := rfl
        rw [he] at hp
        simpa using hp
      rw [headerReplacement_decision
          (.elem "body" [] [.elem "header" [] [.elem "h1" [] [.text "Hello world"]]])
          (.elem "header" [] [.elem "h1" [] [.text "Hello world"]])
          [0] [0] rfl rfl,
        if_neg (by decide)])).1
